import Mathlib

/-
Formal model of the iron-go library: the seal/unseal codec for Iron sealed
cookies.  The repository code is embedded shallowly: byte strings are
`List Nat`, Go `time.Time`/`time.Duration` values are `Int` nanosecond
counts (a `time.Time` zero value is `Option.none`), and fallible code
returns `Except`.  The Go platform primitives that the repository calls but
does not define (crypto/rand, encoding/base64 RawURLEncoding, pbkdf2,
crypto/hmac with the configured hash, and the cipher factory, whose
`CipherFactory`/`AES256` definitions are not under src/) are modelled as
parameters carrying exactly their documented contracts; the functions of the repository itself
 (Unpack, Pack, Base, randBits, generateSalt, generateKey,
hmacWithPassword, encryptBlocks, encrypt, decrypt, Seal, Unseal,
fillDefaults) are translated from the source files.  The seal-capable
variant of the library (src/support.go together with src/unnamed/part_002)
is the program modelled; the older unseal-only copies (src/iron.go,
src/unnamed/part_000) are noted where a claim cites them.
-/

namespace IronGo

/-- Bytes of an ASCII string literal. -/
def strB (s : String) : List Nat := s.data.map Char.toNat

/-- src/support.go:11-15: macFormatVersion = "2". -/
def macFormatVersion : String := "2"

/-- src/support.go:13: the mac prefix "Fe26." + macFormatVersion, as
bytes. -/
def macPrefixBytes : List Nat := strB ("Fe26." ++ macFormatVersion)

/-- Go `strings.Split(s, "*")` on byte strings; 42 is the byte of the
delimiter `*` (src/support.go:14). `splitStar [] = [[]]` exactly as
`strings.Split("", "*") = [""]`. -/
def splitStar : List Nat → List (List Nat)
  | [] => [[]]
  | c :: rest =>
    match splitStar rest with
    | [] => [[c]]
    | h :: t => if c = 42 then [] :: h :: t else (c :: h) :: t

/-- Go `strings.Join(l, "*")` on byte strings. -/
def joinStar : List (List Nat) → List Nat
  | [] => []
  | [x] => x
  | x :: y :: rest => x ++ 42 :: joinStar (y :: rest)

/-- Signed 64-bit wraparound, modelling the wraparound of Go signed `int64`
arithmetic overflow. -/
def wrap64 (z : Int) : Int := (z + 2 ^ 63) % 2 ^ 64 - 2 ^ 63

/-- Decimal digit run parser used by `parseInt64`: all bytes must be ASCII
digits and there must be at least one. -/
def parseDigits (l : List Nat) : Option Nat :=
  match l with
  | [] => none
  | _ =>
    l.foldl
      (fun acc c =>
        acc.bind (fun a => if 48 ≤ c ∧ c ≤ 57 then some (a * 10 + (c - 48)) else none))
      (some 0)

/-- Go `strconv.ParseInt(s, 10, 64)`: optional sign, decimal digits, and
the value must fit a signed 64-bit integer; `none` models a non-nil error
(syntax or range). -/
def parseInt64 (s : List Nat) : Option Int :=
  match s with
  | 43 :: rest =>
    (parseDigits rest).bind fun n => if n ≤ 2 ^ 63 - 1 then some (n : Int) else none
  | 45 :: rest =>
    (parseDigits rest).bind fun n => if n ≤ 2 ^ 63 then some (-(n : Int)) else none
  | _ =>
    (parseDigits s).bind fun n => if n ≤ 2 ^ 63 - 1 then some (n : Int) else none

/-- Go `bytes.TrimRight(data, "\t")`: strip all trailing 0x09 bytes
(src/unnamed/part_002:144). -/
def trimTabs (l : List Nat) : List Nat :=
  (l.reverse.dropWhile (fun b => b == 9)).reverse

/-- The padding step of encryptBlocks (src/unnamed/part_002:159): append
`size - len(b) % size` bytes of the padder 0x09; a full block is appended
when the input is already aligned. -/
def padTabs (bs : Nat) (b : List Nat) : List Nat :=
  b ++ List.replicate (bs - b.length % bs) 9

/-- Instrumented core of Go `crypto/subtle.ConstantTimeCompare`, modelled
from the spec (the function is Go platform code): the first component is
the running OR of the byte XORs, the second counts how many byte
operations were performed. -/
def ctScan (x y : List Nat) : Nat × Nat :=
  (List.zipWith (fun a b => a ^^^ b) x y).foldl (fun p w => (p.1 ||| w, p.2 + 1)) (0, 0)

/-- Go `subtle.ConstantTimeCompare(x, y)`: 0 when the lengths differ,
otherwise 1 exactly when the accumulated OR of all byte XORs is zero.
Modelled from the spec; no early exit is possible because the accumulator
consumes every byte pair. -/
def ctCompare (x y : List Nat) : Nat :=
  if x.length = y.length then (if (ctScan x y).1 = 0 then 1 else 0) else 0

/-- Error family of the library: `unsealErr` is the `UnsealError` of the repository
 (src/support.go:112-116); `opErr` wraps an operational
(platform) error, identified by a numeric code in the model. -/
inductive IronError where
  | unsealErr : String → IronError
  | opErr : Nat → IronError
  deriving DecidableEq

/-- The in-memory token representation (src/support.go:17-26).
`expiration` is the nanosecond count since the Unix epoch; `none` models
the Go zero `time.Time` ("no expiration"). -/
structure Message where
  base : List Nat
  salt : List Nat
  iv : List Nat
  encryptedBody : List Nat
  expiration : Option Int
  hmacSalt : List Nat
  hmac : List Nat
  deriving DecidableEq

/-- The freshly constructed `message{}` of Go: all fields zero. -/
def emptyMessage : Message :=
  { base := [], salt := [], iv := [], encryptedBody := [],
    expiration := none, hmacSalt := [], hmac := [] }

/-- One block-mode operator pair as produced by a cipher factory.
Modelled from the spec (section 4.3): the `CipherFactory`/`AES256`
definitions of the repository are not under src/.  `dec` undoes `enc` on
whole-block-aligned buffers. -/
structure BlockCipher where
  blockSize : Nat
  blockSizePos : 0 < blockSize
  enc : List Nat → List Nat
  dec : List Nat → List Nat
  decEnc : ∀ b : List Nat, blockSize ∣ b.length → dec (enc b) = b

/-- Modelled from the spec: a cipher factory maps a key and IV to a paired
encryptor/decryptor, or fails (bad key size) with a platform error code. -/
def CipherFactory : Type := List Nat → List Nat → Except Nat BlockCipher

/-- The Go platform primitives the repository calls, with their documented
contracts: base64.RawURLEncoding (a left-invertible encoding whose output
never contains the delimiter byte 42 and which encodes nil to ""), PBKDF2
key derivation (deterministic), the HMAC digest of the configured
integrity hash (whose Write step may fail), and crypto/rand reads (indexed
by call site, returning exactly the requested number of bytes on
success). -/
structure Platform where
  b64enc : List Nat → List Nat
  b64dec : List Nat → Option (List Nat)
  b64DecEnc : ∀ b : List Nat, b64dec (b64enc b) = some b
  b64NoStar : ∀ b : List Nat, 42 ∉ b64enc b
  b64Nil : b64enc [] = []
  kdf : List Nat → List Nat → Nat → Nat → List Nat
  hmacDigest : List Nat → List Nat → Except Nat (List Nat)
  randRead : Nat → Nat → Except Nat (List Nat)
  randReadLen : ∀ i n b, randRead i n = Except.ok b → b.length = n

/-- Encryption configuration (src/unnamed/part_002:42-61). -/
structure EncOpts where
  keyBits : Nat
  iterations : Nat
  saltBits : Nat
  cipher : CipherFactory
  ivBits : Nat

/-- Integrity configuration (src/unnamed/part_002:23-38); the hash factory
lives in `Platform.hmacDigest`. -/
structure IntOpts where
  keyBits : Nat
  iterations : Nat
  saltBits : Nat

/-- Options as passed to New (src/unnamed/part_002:64-76). -/
structure RawOpts where
  secret : List Nat
  ttl : Int
  timestampSkew : Int
  localTimeOffset : Int
  encryption : Option EncOpts
  integrity : Option IntOpts

/-- Options after fillDefaults: both sub-configurations present. -/
structure VaultOpts where
  secret : List Nat
  ttl : Int
  timestampSkew : Int
  localTimeOffset : Int
  encryption : EncOpts
  integrity : IntOpts

/-- fillDefaults (src/unnamed/part_002:79-108): `none` models the panic on
a secret shorter than 32 bytes; otherwise a zero skew becomes 60 seconds
and absent sub-configurations get the defaults
`{IVBits 16, KeyBits 256, Iterations 1, SaltBits 32, Cipher AES256}` and
`{KeyBits 256, Iterations 1, SaltBits 32, Hash sha256}`.  The AES-256-CBC
factory is a parameter because its definition is not under src/. -/
def fillDefaults (aes : CipherFactory) (o : RawOpts) : Option VaultOpts :=
  if o.secret.length < 32 then none
  else
    some
      { secret := o.secret
        ttl := o.ttl
        timestampSkew :=
          if o.timestampSkew = 0 then 60 * 1000000000 else o.timestampSkew
        localTimeOffset := o.localTimeOffset
        encryption :=
          o.encryption.getD
            { keyBits := 256, iterations := 1, saltBits := 32, cipher := aes, ivBits := 16 }
        integrity := o.integrity.getD { keyBits := 256, iterations := 1, saltBits := 32 } }

/-- The options literal with only the Secret set, everything else zero, as the CLI and the tests
build it. -/
def defaultRaw (s : List Nat) : RawOpts :=
  { secret := s, ttl := 0, timestampSkew := 0, localTimeOffset := 0,
    encryption := none, integrity := none }

/-- The vault options `fillDefaults` yields from `defaultRaw` for a secret
of sufficient length. -/
def defaultVaultOpts (aes : CipherFactory) (s : List Nat) : VaultOpts :=
  { secret := s, ttl := 0, timestampSkew := 60 * 1000000000,
    localTimeOffset := 0,
    encryption :=
      { keyBits := 256, iterations := 1, saltBits := 32, cipher := aes,
        ivBits := 16 }
    integrity := { keyBits := 256, iterations := 1, saltBits := 32 } }

/-- Unpack (src/support.go:30-62): split on `*`, require exactly 8 fields,
require the `Fe26.2` mac prefix, parse a non-empty field 5 as a signed
64-bit decimal of milliseconds (`Expiration = time.Unix(0, exp *
int64(time.Millisecond))`, a wrapping int64 multiply), base64url-decode
fields 3, 4 and 7, keep fields 2 and 6 verbatim, and memoize the base as
the input truncated before field 6. -/
def unpack (pf : Platform) (s : List Nat) : Except IronError Message :=
  let parts := splitStar s
  if parts.length ≠ 8 then
    Except.error (IronError.unsealErr ("Incorrect number of sealed components"))
  else if parts.getD 0 [] ≠ macPrefixBytes then
    Except.error (IronError.unsealErr ("Wrong mac prefix"))
  else
    let expRes : Except IronError (Option Int) :=
      if 0 < (parts.getD 5 []).length then
        match parseInt64 (parts.getD 5 []) with
        | none => Except.error (IronError.unsealErr ("Invalid expiration time"))
        | some e => Except.ok (some (wrap64 (e * 1000000)))
      else Except.ok none
    match expRes with
    | Except.error e => Except.error e
    | Except.ok expv =>
      match pf.b64dec (parts.getD 3 []), pf.b64dec (parts.getD 4 []),
          pf.b64dec (parts.getD 7 []) with
      | some iv, some body, some hm =>
        Except.ok
          { base :=
              s.take (s.length - (parts.getD 7 []).length - 1 - (parts.getD 6 []).length - 1)
            salt := parts.getD 2 []
            iv := iv
            encryptedBody := body
            expiration := expv
            hmacSalt := parts.getD 6 []
            hmac := hm }
      | _, _, _ => Except.error (IronError.unsealErr ("Invalid component encoding"))

/-- Field 5 of a reconstructed base (src/support.go:89-91): empty when no
expiration, otherwise `FormatInt(UnixNano()/int64(time.Millisecond), 10)`
(truncated division). -/
def natDecBytes (n : Nat) : List Nat :=
  if h : n < 10 then [n + 48]
  else natDecBytes (n / 10) ++ [n % 10 + 48]
  decreasing_by exact Nat.div_lt_self (by omega) (by omega)

/-- Decimal rendering of an `Int`, as Go `strconv.FormatInt(i, 10)`. -/
def intDecBytes (i : Int) : List Nat :=
  if i < 0 then 45 :: natDecBytes i.natAbs else natDecBytes i.toNat

/-- The expiration field of a reconstructed base. -/
def expField (m : Message) : List Nat :=
  match m.expiration with
  | none => []
  | some e => intDecBytes (Int.tdiv e 1000000)

/-- Base (src/support.go:75-95): the memoized base if set, otherwise the
first six fields joined with `*` (the unnamed older copy
src/unnamed/part_000:60-66 instead panics when the memo is absent). -/
def msgBase (pf : Platform) (m : Message) : List Nat :=
  if m.base ≠ [] then m.base
  else
    joinStar
      [macPrefixBytes, [], m.salt, pf.b64enc m.iv, pf.b64enc m.encryptedBody, expField m]

/-- Pack (src/support.go:65-71): base, HMAC salt (verbatim) and
base64url-encoded HMAC joined with `*`. -/
def pack (pf : Platform) (m : Message) : List Nat :=
  joinStar [msgBase pf m, m.hmacSalt, pf.b64enc m.hmac]

/-- randBits (src/support.go:106-110 and src/unnamed/part_000:77-81):
`b := make([]byte, n); rand.Read(b)` — the buffer passed to the RNG has
length `n` (not `n/8`); the call index distinguishes successive reads. -/
def randBits (pf : Platform) (i n : Nat) : Except IronError (List Nat) :=
  match pf.randRead i n with
  | Except.error c => Except.error (IronError.opErr c)
  | Except.ok b => Except.ok b

/-- generateSalt (src/unnamed/part_002:147-155): draws
`Encryption.SaltBits` units of randomness — the `size` argument is unused
by the source — and base64url-encodes them. -/
def generateSalt (pf : Platform) (vo : VaultOpts) (i : Nat) (size : Nat) :
    Except IronError (List Nat) :=
  match randBits pf i vo.encryption.saltBits with
  | Except.error e => Except.error e
  | Except.ok raw => Except.ok (pf.b64enc raw)

/-- generateKey (src/unnamed/part_002:116-118): PBKDF2 over the secret
with the given salt, iterations and `keybits/8` output bytes. -/
def generateKey (pf : Platform) (vo : VaultOpts) (keyBits iterations : Nat)
    (salt : List Nat) : List Nat :=
  pf.kdf vo.secret salt iterations (keyBits / 8)

/-- hmacWithPassword (src/unnamed/part_002:125-133): derive the integrity
key, then HMAC the data; a hash-write failure propagates. -/
def hmacWithPassword (pf : Platform) (vo : VaultOpts) (salt data : List Nat) :
    Except IronError (List Nat) :=
  match pf.hmacDigest
      (generateKey pf vo vo.integrity.keyBits vo.integrity.iterations salt) data with
  | Except.error c => Except.error (IronError.opErr c)
  | Except.ok d => Except.ok d

/-- encryptBlocks (src/unnamed/part_002:157-167): pad with 0x09 to a whole
number of blocks, then run the encryptor over the buffer (the
per-block source loop over one chained BlockMode equals one whole-buffer
application, which is the granularity of the spec-modelled operators). -/
def encryptBlocks (c : BlockCipher) (b : List Nat) : List Nat :=
  c.enc (padTabs c.blockSize b)

/-- encrypt (src/unnamed/part_002:169-191): generate the encryption salt
(RNG call 0), derive the key, draw the IV (RNG call 1), instantiate the
cipher and encrypt. -/
def encrypt (pf : Platform) (vo : VaultOpts) (b : List Nat) :
    Except IronError Message :=
  match generateSalt pf vo 0 vo.encryption.saltBits with
  | Except.error e => Except.error e
  | Except.ok salt =>
    let key := generateKey pf vo vo.encryption.keyBits vo.encryption.iterations salt
    match randBits pf 1 vo.encryption.ivBits with
    | Except.error e => Except.error e
    | Except.ok iv =>
      match vo.encryption.cipher key iv with
      | Except.error c => Except.error (IronError.opErr c)
      | Except.ok cm =>
        Except.ok
          { base := [], salt := salt, iv := iv,
            encryptedBody := encryptBlocks cm b,
            expiration := none, hmacSalt := [], hmac := [] }

/-- decrypt (src/unnamed/part_002:135-145): derive the key from the
message salt, instantiate the cipher, decrypt and trim trailing 0x09
bytes.  (The older unseal-only copy src/iron.go:134-144 returns the buffer
without the trim.) -/
def decrypt (pf : Platform) (vo : VaultOpts) (m : Message) :
    Except IronError (List Nat) :=
  match vo.encryption.cipher
      (generateKey pf vo vo.encryption.keyBits vo.encryption.iterations m.salt) m.iv with
  | Except.error c => Except.error (IronError.opErr c)
  | Except.ok c => Except.ok (trimTabs (c.dec m.encryptedBody))

/-- Step 1 of Unseal (src/unnamed/part_002:204-209): when an expiration is
set, `delta = Expiration - (now + LocalTimeOffset)` and `delta <
-TimestampSkew` fails with "Expired or invalid seal".  (The older copy
src/iron.go:157-162 instead computes delta with the opposite sign and
rejects whenever `delta > skew || delta < skew`.) -/
def expCheck (vo : VaultOpts) (now : Int) (m : Message) : Except IronError Unit :=
  match m.expiration with
  | none => Except.ok ()
  | some e =>
    if e - (now + vo.localTimeOffset) < -vo.timestampSkew then
      Except.error (IronError.unsealErr ("Expired or invalid seal"))
    else Except.ok ()

/-- Unseal (src/unnamed/part_002:196-228): unpack, check expiration,
recompute the HMAC over the base, compare in constant time, then
decrypt. -/
def Unseal (pf : Platform) (vo : VaultOpts) (now : Int) (s : List Nat) :
    Except IronError (List Nat) :=
  match unpack pf s with
  | Except.error e => Except.error e
  | Except.ok msg =>
    match expCheck vo now msg with
    | Except.error e => Except.error e
    | Except.ok _ =>
      match hmacWithPassword pf vo msg.hmacSalt (msgBase pf msg) with
      | Except.error e => Except.error e
      | Except.ok digest =>
        if ctCompare digest msg.hmac = 0 then
          Except.error (IronError.unsealErr ("Bad hmac value"))
        else decrypt pf vo msg

/-- Seal (src/unnamed/part_002:231-256): encrypt, set the expiration when
TTL is positive, generate the HMAC salt (RNG call 2) and digest, pack.
The source assigns the error of hmacWithPassword at line 249 but never
checks it, so a failed digest leaves a nil HMAC and the token is still
produced; the model mirrors that. -/
def Seal (pf : Platform) (vo : VaultOpts) (now : Int) (b : List Nat) :
    Except IronError (List Nat) :=
  match encrypt pf vo b with
  | Except.error e => Except.error e
  | Except.ok msg0 =>
    let msg1 :=
      if vo.ttl > 0 then { msg0 with expiration := some (now + vo.ttl) } else msg0
    match generateSalt pf vo 2 vo.integrity.saltBits with
    | Except.error e => Except.error e
    | Except.ok hmacSalt =>
      let digest :=
        match hmacWithPassword pf vo hmacSalt (msgBase pf msg1) with
        | Except.ok d => d
        | Except.error _ => []
      Except.ok (pack pf { msg1 with hmacSalt := hmacSalt, hmac := digest })

/-- Seal followed by Unseal of the produced token. -/
def SealUnseal (pf : Platform) (vo : VaultOpts) (now : Int) (b : List Nat) :
    Except IronError (List Nat) :=
  match Seal pf vo now b with
  | Except.error e => Except.error e
  | Except.ok tok => Unseal pf vo now tok

/-- Payload of a successful unseal result, for stating counterexamples. -/
def okPayload : Except IronError (List Nat) → Option (List Nat)
  | Except.ok b => some b
  | Except.error _ => none

/-- Expiration field of a successful unpack, for stating counterexamples. -/
def okExpiration : Except IronError Message → Option (Option Int)
  | Except.ok m => some m.expiration
  | Except.error _ => none

/-
Concrete instances used by witnesses and counterexamples.  They satisfy
every contract of `Platform`, `BlockCipher` and `CipherFactory`, so the
program definitions can be evaluated on closed inputs.
-/

/-- A concrete left-invertible, delimiter-free encoding standing in for
base64url in witnesses: shift every byte up by 48 (all outputs are ≥ 48,
so never the delimiter 42). -/
def shiftEnc (b : List Nat) : List Nat := b.map (fun x => x + 48)

/-- Decoder of `shiftEnc`: defined on strings all of whose bytes are
≥ 48. -/
def shiftDec : List Nat → Option (List Nat)
  | [] => some []
  | c :: r => if 48 ≤ c then (shiftDec r).map (fun t => (c - 48) :: t) else none

/-- A concrete block cipher with block size 1 whose operators are the
identity. -/
def idCipher1 : BlockCipher :=
  { blockSize := 1, blockSizePos := by decide,
    enc := fun b => b, dec := fun b => b,
    decEnc := fun _ _ => rfl }

/-- A concrete always-succeeding cipher factory. -/
def aesW : CipherFactory := fun _ _ => Except.ok idCipher1

/-- A concrete cipher factory that always fails with platform code 5. -/
def cipherFail : CipherFactory := fun _ _ => Except.error 5

/-- An RNG that always succeeds, returning the requested number of bytes
of value 48. -/
def randOkF : Nat → Nat → Except Nat (List Nat) :=
  fun _ n => Except.ok (List.replicate n 48)

/-- Builds a concrete `Platform` over `shiftEnc`/`shiftDec` from an HMAC
function and an RNG with its length contract. -/
def basePlatform (hmacF : List Nat → List Nat → Except Nat (List Nat))
    (randF : Nat → Nat → Except Nat (List Nat))
    (hlen : ∀ i n b, randF i n = Except.ok b → b.length = n) : Platform :=
  { b64enc := shiftEnc
    b64dec := shiftDec
    b64DecEnc := by
      intro b
      induction b with
      | nil => rfl
      | cons hd tl ih =>
        show shiftDec ((hd + 48) :: shiftEnc tl) = some (hd :: tl)
        simp [shiftDec, ih]
    b64NoStar := by
      intro b
      induction b with
      | nil => simp [shiftEnc]
      | cons hd tl ih =>
        simp [shiftEnc] at ih ⊢
    b64Nil := rfl
    kdf := fun _ _ _ n => List.replicate n 0
    hmacDigest := hmacF
    randRead := randF
    randReadLen := hlen }

/-- Length contract of `randOkF`. -/
def randOkLen : ∀ i n b, randOkF i n = Except.ok b → b.length = n :=
  fun _ n b h => by
    injection h with h2
    rw [← h2]
    simp

/-- The main concrete platform: concatenation HMAC, succeeding RNG. -/
def Pw : Platform := basePlatform (fun k d => Except.ok (k ++ d)) randOkF randOkLen

/-- A platform whose HMAC digest is always the empty string (so a token
with an empty HMAC field passes the MAC check). -/
def PhmacNil : Platform := basePlatform (fun _ _ => Except.ok []) randOkF randOkLen

/-- A platform whose HMAC hash write always fails with platform code 7. -/
def PhFail : Platform := basePlatform (fun _ _ => Except.error 7) randOkF randOkLen

/-- A platform whose RNG always fails with platform code 3. -/
def PrFail : Platform :=
  basePlatform (fun k d => Except.ok (k ++ d)) (fun _ _ => Except.error 3)
    (fun _ _ _ h => Except.noConfusion h)

/-- A 32-byte secret. -/
def secretW : List Nat := List.replicate 32 97

/-- The vault options produced by `fillDefaults aesW (defaultRaw secretW)`:
the default configuration of the library over the concrete factory. -/
def voD : VaultOpts :=
  { secret := secretW, ttl := 0, timestampSkew := 60 * 1000000000,
    localTimeOffset := 0,
    encryption :=
      { keyBits := 256, iterations := 1, saltBits := 32, cipher := aesW, ivBits := 16 }
    integrity := { keyBits := 256, iterations := 1, saltBits := 32 } }

/-- Default options except that the integrity salt size differs from the
encryption salt size (7 versus 32), to expose which one generateSalt
uses. -/
def voOdd : VaultOpts :=
  { voD with integrity := { keyBits := 256, iterations := 1, saltBits := 7 } }

/-- Default options over the failing cipher factory. -/
def voCFail : VaultOpts :=
  { voD with
    encryption :=
      { keyBits := 256, iterations := 1, saltBits := 32, cipher := cipherFail,
        ivBits := 16 } }

/-- A well-formed token with expiration field "5" (5 ms after the epoch). -/
def tokC2 : List Nat := strB ("Fe26.2*a*s*0*0*5*h*0")

/-- The message `unpack Pw tokC2` produces. -/
def msgC2 : Message :=
  { base := strB ("Fe26.2*a*s*0*0*5"), salt := [115], iv := [0],
    encryptedBody := [0], expiration := some 5000000, hmacSalt := [104],
    hmac := [0] }

/-- A well-formed token without expiration whose body decodes to [7, 9, 9]
and whose HMAC field is empty. -/
def tokC4 : List Nat := strB ("Fe26.2**s*0*799**h*")

/-- The message `unpack PhmacNil tokC4` produces. -/
def msgC4 : Message :=
  { base := strB ("Fe26.2**s*0*799*"), salt := [115], iv := [0],
    encryptedBody := [7, 9, 9], expiration := none, hmacSalt := [104],
    hmac := [] }

/-- A well-formed token without expiration whose HMAC field decodes to
[0] (which cannot match the concatenation digest of `Pw`). -/
def tokC8 : List Nat := strB ("Fe26.2**s*0*0**h*0")

/-- The message `unpack Pw tokC8` produces. -/
def msgC8 : Message :=
  { base := strB ("Fe26.2**s*0*0*"), salt := [115], iv := [0],
    encryptedBody := [0], expiration := none, hmacSalt := [104], hmac := [0] }

/-- A well-formed token whose expiration field is the literal "0". -/
def tokC10 : List Nat := strB ("Fe26.2**s*0*0*0*h*0")

/-- A well-formed token whose expiration field is the largest int64,
9223372036854775807: it parses, but the millisecond-to-nanosecond multiply
wraps around int64. -/
def tokBig : List Nat := strB ("Fe26.2**s*0*0*9223372036854775807*h*0")

/-- The message `unpack Pw tokC10` produces: the expiration is the epoch
(`some 0`), not the absent value `none`. -/
def msgC10 : Message :=
  { base := strB ("Fe26.2**s*0*0*0"), salt := [115], iv := [0],
    encryptedBody := [0], expiration := some 0, hmacSalt := [104], hmac := [0] }

/-- A token of valid shape whose expiration field is the non-numeric
byte "x". -/
def tokC5bad : List Nat := strB ("Fe26.2*a*s*0*0*x*h*0")

/-- Whether a Seal/Unseal result is a success, for stating that a token
was produced. -/
def isOkList : Except IronError (List Nat) → Bool
  | Except.ok _ => true
  | Except.error _ => false

/-
Helper lemmas about the byte-string combinators.
-/

theorem splitStar_ne_nil (l : List Nat) : splitStar l ≠ [] := by
  cases l with
  | nil => simp [splitStar]
  | cons c r =>
    rw [splitStar]
    rcases hs : splitStar r with _ | ⟨a, t⟩
    · simp
    · split <;> first | (split <;> simp) | simp

theorem splitStar_noStar (x : List Nat) (h : 42 ∉ x) : splitStar x = [x] := by
  induction x with
  | nil => rfl
  | cons c r ih =>
    simp [List.mem_cons] at h
    obtain ⟨h1, h2⟩ := h
    rw [splitStar, ih h2]
    simp
    omega

theorem splitStar_append (x y : List Nat) (h : 42 ∉ x) :
    splitStar (x ++ 42 :: y) = x :: splitStar y := by
  induction x with
  | nil =>
    obtain ⟨a, t, hat⟩ := List.exists_cons_of_ne_nil (splitStar_ne_nil y)
    show splitStar (42 :: y) = [] :: splitStar y
    rw [splitStar, hat]
    simp
  | cons c r ih =>
    simp [List.mem_cons] at h
    obtain ⟨h1, h2⟩ := h
    show splitStar (c :: (r ++ 42 :: y)) = (c :: r) :: splitStar y
    rw [splitStar, ih h2]
    simp
    omega

theorem splitStar_joinStar (l : List (List Nat)) (hl : l ≠ [])
    (h : ∀ c ∈ l, 42 ∉ c) : splitStar (joinStar l) = l := by
  induction l with
  | nil => cases hl rfl
  | cons a rest ih =>
    cases rest with
    | nil => exact splitStar_noStar a (h a (by simp))
    | cons b r2 =>
      show splitStar (a ++ 42 :: joinStar (b :: r2)) = a :: b :: r2
      rw [splitStar_append a _ (h a (by simp))]
      rw [ih (by simp) (fun c hc => h c (by simp [hc]))]

theorem take_len_append (a b : List Nat) : (a ++ b).take a.length = a := by
  induction a with
  | nil => simp
  | cons c r ih => simp [ih]

theorem dropWhile_tabs_replicate (k : Nat) (l : List Nat) :
    (List.replicate k 9 ++ l).dropWhile (fun b => b == 9) =
      l.dropWhile (fun b => b == 9) := by
  induction k with
  | zero => rfl
  | succ n ih => simp [List.replicate_succ, List.dropWhile, ih]

theorem trimTabs_append_replicate (b : List Nat) (k : Nat) :
    trimTabs (b ++ List.replicate k 9) = trimTabs b := by
  unfold trimTabs
  rw [List.reverse_append, List.reverse_replicate, dropWhile_tabs_replicate]

theorem trimTabs_no_tail (b : List Nat) (hb : b.getLast? ≠ some 9) :
    trimTabs b = b := by
  induction b using List.reverseRecOn with
  | nil => rfl
  | append_singleton xs x _ =>
    have hx : (x == 9) = false := by
      have hne : x ≠ 9 := by
        intro h9
        exact hb (by rw [h9]; simp)
      simp [hne]
    unfold trimTabs
    rw [List.reverse_append]
    simp [List.dropWhile, hx]

theorem trimTabs_padTabs (bs : Nat) (b : List Nat)
    (hb : b.getLast? ≠ some 9) : trimTabs (padTabs bs b) = b := by
  unfold padTabs
  rw [trimTabs_append_replicate, trimTabs_no_tail b hb]

theorem padTabs_length_dvd (bs : Nat) (hbs : 0 < bs) (b : List Nat) :
    bs ∣ (padTabs bs b).length := by
  have hmod : b.length % bs < bs := Nat.mod_lt _ hbs
  have hdm : bs * (b.length / bs) + b.length % bs = b.length := Nat.div_add_mod _ _
  refine ⟨b.length / bs + 1, ?_⟩
  simp only [padTabs, List.length_append, List.length_replicate, Nat.mul_add,
    Nat.mul_one]
  omega

/-
Helper lemmas about the constant-time comparison.
-/

theorem lor_eq_zero_split (m n : Nat) : m ||| n = 0 ↔ m = 0 ∧ n = 0 := by
  constructor
  · intro h
    have ht : ∀ i, Nat.testBit m i = false ∧ Nat.testBit n i = false := by
      intro i
      have h2 : Nat.testBit (m ||| n) i = false := by
        rw [h]; exact Nat.zero_testBit i
      rw [Nat.testBit_lor] at h2
      simpa using h2
    constructor
    · exact Nat.eq_of_testBit_eq fun i => by rw [(ht i).1, Nat.zero_testBit]
    · exact Nat.eq_of_testBit_eq fun i => by rw [(ht i).2, Nat.zero_testBit]
  · rintro ⟨rfl, rfl⟩
    rfl

theorem foldl_orCount_fst (l : List Nat) (a k : Nat) :
    (l.foldl (fun p w => (p.1 ||| w, p.2 + 1)) (a, k)).1 =
      l.foldl (fun v w => v ||| w) a := by
  induction l generalizing a k with
  | nil => rfl
  | cons h t ih => simp [List.foldl_cons, ih]

theorem foldl_orCount_snd (l : List Nat) (a k : Nat) :
    (l.foldl (fun p w => (p.1 ||| w, p.2 + 1)) (a, k)).2 = k + l.length := by
  induction l generalizing a k with
  | nil => simp
  | cons h t ih =>
    simp [List.foldl_cons, ih]
    omega

theorem foldl_lor_eq_zero (l : List Nat) (a : Nat) :
    l.foldl (fun v w => v ||| w) a = 0 ↔ a = 0 ∧ ∀ w ∈ l, w = 0 := by
  induction l generalizing a with
  | nil => simp
  | cons h t ih =>
    rw [List.foldl_cons, ih]
    rw [lor_eq_zero_split]
    constructor
    · rintro ⟨⟨ha, hh⟩, hall⟩
      refine ⟨ha, fun w hw => ?_⟩
      rw [List.mem_cons] at hw
      rcases hw with rfl | hw
      · exact hh
      · exact hall w hw
    · rintro ⟨ha, hall⟩
      exact ⟨⟨ha, hall h (by simp)⟩, fun w hw => hall w (by simp [hw])⟩

theorem ctScan_snd_len (x y : List Nat) (h : x.length = y.length) :
    (ctScan x y).2 = x.length := by
  unfold ctScan
  rw [foldl_orCount_snd]
  simp [List.length_zipWith, h]

theorem zipWith_xor_self (x : List Nat) :
    List.zipWith (fun a b => a ^^^ b) x x = List.replicate x.length 0 := by
  induction x with
  | nil => rfl
  | cons h t ih => simp [List.zipWith_cons_cons, Nat.xor_self, ih, List.replicate_succ]

theorem ctCompare_self (x : List Nat) : ctCompare x x = 1 := by
  unfold ctCompare
  rw [if_pos rfl, if_pos]
  unfold ctScan
  rw [foldl_orCount_fst, zipWith_xor_self]
  rw [foldl_lor_eq_zero]
  exact ⟨rfl, fun w hw => List.eq_of_mem_replicate hw⟩

theorem eq_of_zipWith_xor_zero :
    ∀ x y : List Nat, x.length = y.length →
      (∀ w ∈ List.zipWith (fun a b => a ^^^ b) x y, w = 0) → x = y := by
  intro x
  induction x with
  | nil =>
    intro y hlen _
    cases y with
    | nil => rfl
    | cons b t => simp at hlen
  | cons a s ih =>
    intro y hlen hall
    cases y with
    | nil => simp at hlen
    | cons b t =>
      have hab : a = b := by
        have := hall (a ^^^ b) (by simp [List.zipWith_cons_cons])
        exact Nat.xor_eq_zero.1 this
      have hrest : s = t := by
        refine ih t (by simpa using hlen) fun w hw => hall w ?_
        simp [List.zipWith_cons_cons, hw]
      rw [hab, hrest]

theorem ctCompare_eq_one_iff (x y : List Nat) : ctCompare x y = 1 ↔ x = y := by
  constructor
  · intro h
    unfold ctCompare at h
    by_cases hlen : x.length = y.length
    · rw [if_pos hlen] at h
      by_cases hz : (ctScan x y).1 = 0
      · refine eq_of_zipWith_xor_zero x y hlen fun w hw => ?_
        unfold ctScan at hz
        rw [foldl_orCount_fst, foldl_lor_eq_zero] at hz
        exact hz.2 w hw
      · rw [if_neg hz] at h
        cases h
    · rw [if_neg hlen] at h
      cases h
  · rintro rfl
    exact ctCompare_self x

/-
Evaluation of unpack on a packed token whose fields are delimiter-free.
-/

theorem joinStar_eight (a b c d e f g h : List Nat) :
    joinStar [a, b, c, d, e, f, g, h] =
      joinStar [a, b, c, d, e, f] ++ 42 :: (g ++ 42 :: h) := by
  simp [joinStar, List.append_assoc]

theorem joinStar_three (a b c : List Nat) :
    joinStar [a, b, c] = a ++ 42 :: (b ++ 42 :: c) := by
  simp [joinStar]

theorem take_base_slice (base g h : List Nat) :
    (base ++ 42 :: (g ++ 42 :: h)).take
      ((base ++ 42 :: (g ++ 42 :: h)).length - h.length - 1 - g.length - 1) = base := by
  have hlen :
      (base ++ 42 :: (g ++ 42 :: h)).length - h.length - 1 - g.length - 1 =
        base.length := by
    simp [List.length_append]
    omega
  rw [hlen]
  exact take_len_append base _

theorem unpack_packed (pf : Platform) (salt iv body hs dg : List Nat)
    (hsalt : 42 ∉ salt) (hhs : 42 ∉ hs) :
    unpack pf
        (joinStar [macPrefixBytes, [], salt, pf.b64enc iv, pf.b64enc body, [],
          hs, pf.b64enc dg]) =
      Except.ok
        { base := joinStar [macPrefixBytes, [], salt, pf.b64enc iv, pf.b64enc body, []]
          salt := salt, iv := iv, encryptedBody := body, expiration := none
          hmacSalt := hs, hmac := dg } := by
  have hstar : ∀ c ∈ [macPrefixBytes, ([] : List Nat), salt, pf.b64enc iv,
      pf.b64enc body, [], hs, pf.b64enc dg], 42 ∉ c := by
    intro c hc
    simp only [List.mem_cons, List.not_mem_nil, or_false] at hc
    rcases hc with rfl | rfl | rfl | rfl | rfl | rfl | rfl | rfl
    · decide
    · simp
    · exact hsalt
    · exact pf.b64NoStar iv
    · exact pf.b64NoStar body
    · simp
    · exact hhs
    · exact pf.b64NoStar dg
  have hsplit := splitStar_joinStar _ (by simp) hstar
  simp only [unpack]
  rw [hsplit]
  simp only [List.getD_cons_zero, List.getD_cons_succ, List.getD_nil,
    List.length_cons, List.length_nil]
  rw [if_neg (by decide)]
  rw [if_neg (by simp)]
  rw [if_neg (by simp)]
  rw [pf.b64DecEnc iv, pf.b64DecEnc body, pf.b64DecEnc dg]
  rw [joinStar_eight, take_base_slice]

theorem joinStar_six_three (a b c d e f g h : List Nat) :
    joinStar [joinStar [a, b, c, d, e, f], g, h] =
      joinStar [a, b, c, d, e, f, g, h] := by
  simp [joinStar, List.append_assoc]

theorem joinStar_six_ne_nil (a b c d e f : List Nat) :
    joinStar [a, b, c, d, e, f] ≠ [] := by
  simp [joinStar]

/-- Claim C1, amended: with default options over a secret of at least 32
bytes, for every payload of length at most 4096 bytes whose final byte is
not the padder 0x09 (in particular every empty payload), sealing and then
unsealing returns the payload unchanged — for any platform primitives and
cipher factory meeting their contracts, with all platform calls
succeeding.  (The original claim, quantifying over all payloads, fails on
payloads ending in 0x09 because decryption strips every trailing 0x09
byte, including bytes of the payload itself; see the counterexample.) -/
theorem claim1_roundtrip_amended (pf : Platform) (aes : CipherFactory)
    (S P : List Nat) (now : Int) (vo : VaultOpts)
    (hS : 32 ≤ S.length) (hP : P.length ≤ 4096)
    (hlast : P.getLast? ≠ some 9)
    (hvo : fillDefaults aes (defaultRaw S) = some vo)
    (haes : ∀ key iv, ∃ c, aes key iv = Except.ok c)
    (hrand : ∀ i n, ∃ b, pf.randRead i n = Except.ok b)
    (hhmac : ∀ k d, ∃ g, pf.hmacDigest k d = Except.ok g) :
    SealUnseal pf vo now P = Except.ok P := by
  have hvo2 : vo = defaultVaultOpts aes S := by
    have hnl : ¬ (S.length < 32) := by omega
    simp [fillDefaults, defaultRaw, hnl] at hvo
    exact hvo.symm
  subst hvo2
  obtain ⟨r0, h0⟩ := hrand 0 32
  obtain ⟨r1, h1⟩ := hrand 1 16
  obtain ⟨r2, h2⟩ := hrand 2 32
  obtain ⟨c, hc⟩ := haes (pf.kdf S (pf.b64enc r0) 1 32) r1
  have henc : encrypt pf (defaultVaultOpts aes S) P =
      Except.ok
        { base := [], salt := pf.b64enc r0, iv := r1,
          encryptedBody := c.enc (padTabs c.blockSize P),
          expiration := none, hmacSalt := [], hmac := [] } := by
    simp [encrypt, generateSalt, randBits, h0, h1, generateKey, hc, encryptBlocks,
      defaultVaultOpts]
  obtain ⟨dg, hdg⟩ := hhmac (pf.kdf S (pf.b64enc r2) 1 32)
    (joinStar [macPrefixBytes, [], pf.b64enc r0, pf.b64enc r1,
      pf.b64enc (c.enc (padTabs c.blockSize P)), []])
  have hseal : Seal pf (defaultVaultOpts aes S) now P =
      Except.ok
        (joinStar [joinStar [macPrefixBytes, [], pf.b64enc r0, pf.b64enc r1,
          pf.b64enc (c.enc (padTabs c.blockSize P)), []],
          pf.b64enc r2, pf.b64enc dg]) := by
    simp [defaultVaultOpts] at henc
    simp [Seal, henc, generateSalt, randBits, h2, hmacWithPassword, generateKey,
      hdg, pack, msgBase, expField, defaultVaultOpts]
  have hun : unpack pf
      (joinStar [joinStar [macPrefixBytes, [], pf.b64enc r0, pf.b64enc r1,
        pf.b64enc (c.enc (padTabs c.blockSize P)), []],
        pf.b64enc r2, pf.b64enc dg]) =
      Except.ok
        { base := joinStar [macPrefixBytes, [], pf.b64enc r0, pf.b64enc r1,
            pf.b64enc (c.enc (padTabs c.blockSize P)), []]
          salt := pf.b64enc r0, iv := r1,
          encryptedBody := c.enc (padTabs c.blockSize P), expiration := none
          hmacSalt := pf.b64enc r2, hmac := dg } := by
    rw [joinStar_six_three]
    exact unpack_packed pf (pf.b64enc r0) r1 (c.enc (padTabs c.blockSize P))
      (pf.b64enc r2) dg (pf.b64NoStar r0) (pf.b64NoStar r2)
  have hdecbody : c.dec (c.enc (padTabs c.blockSize P)) = padTabs c.blockSize P :=
    c.decEnc _ (padTabs_length_dvd _ c.blockSizePos _)
  simp only [SealUnseal, hseal, Unseal, hun, expCheck]
  rw [msgBase]
  rw [if_pos (joinStar_six_ne_nil _ _ _ _ _ _)]
  simp only [hmacWithPassword, generateKey, defaultVaultOpts]
  simp only [hdg]
  rw [ctCompare_self]
  rw [if_neg (by decide)]
  simp only [decrypt, generateKey]
  simp only [hc]
  rw [hdecbody, trimTabs_padTabs _ _ hlast]

/-- Witness for claim C1: the amended round-trip theorem applied to the
payload [104, 105] over the concrete platform. -/
theorem claim1_roundtrip_amended_witness :
    SealUnseal Pw voD 0 [104, 105] = Except.ok [104, 105] :=
  claim1_roundtrip_amended Pw aesW secretW [104, 105] 0 voD (by decide)
    (by decide) (by decide) rfl (fun _ _ => ⟨idCipher1, rfl⟩)
    (fun _ n => ⟨List.replicate n 48, rfl⟩) (fun k d => ⟨k ++ d, rfl⟩)

set_option maxRecDepth 8192 in
/-- Counterexample for claim C1 as stated: the one-byte payload [9] (a
single tab, length 1 ≤ 4096) under a 32-byte secret with default options
seals and then unseals to the empty payload, not to [9]: the decrypt step
strips the payload byte together with the padding. -/
theorem claim1_roundtrip_counterexample :
    32 ≤ secretW.length ∧ ([9] : List Nat).length ≤ 4096 ∧
      fillDefaults aesW (defaultRaw secretW) = some voD ∧
      okPayload (SealUnseal Pw voD 0 [9]) = some [] ∧
      some ([] : List Nat) ≠ some [9] :=
  ⟨by decide, by decide, rfl, rfl, by decide⟩

/-
Error-shape lemmas: hmacWithPassword and decrypt only fail with
operational (platform) errors, never with an UnsealError.
-/

theorem hmacWithPassword_error_shape (pf : Platform) (vo : VaultOpts)
    (s d : List Nat) (x : IronError)
    (h : hmacWithPassword pf vo s d = Except.error x) :
    ∃ cc, x = IronError.opErr cc := by
  unfold hmacWithPassword at h
  rcases hh : pf.hmacDigest
      (generateKey pf vo vo.integrity.keyBits vo.integrity.iterations s) d with cc | dd
  · rw [hh] at h
    exact ⟨cc, by injection h with h2; exact h2.symm⟩
  · rw [hh] at h
    exact Except.noConfusion h

theorem decrypt_error_shape (pf : Platform) (vo : VaultOpts) (m : Message)
    (x : IronError) (h : decrypt pf vo m = Except.error x) :
    ∃ cc, x = IronError.opErr cc := by
  unfold decrypt at h
  rcases hh : vo.encryption.cipher
      (generateKey pf vo vo.encryption.keyBits vo.encryption.iterations m.salt)
      m.iv with cc | cdec
  · rw [hh] at h
    exact ⟨cc, by injection h with h2; exact h2.symm⟩
  · rw [hh] at h
    exact Except.noConfusion h

/-
Staging lemmas for Unseal: the result once the outcome of each stage is
known.
-/

theorem Unseal_stage_expErr (pf : Platform) (vo : VaultOpts) (now : Int)
    (tok : List Nat) (msg : Message) (x : IronError)
    (hu : unpack pf tok = Except.ok msg)
    (hx : expCheck vo now msg = Except.error x) :
    Unseal pf vo now tok = Except.error x := by
  simp only [Unseal, hu, hx]

theorem Unseal_stage_hmacErr (pf : Platform) (vo : VaultOpts) (now : Int)
    (tok : List Nat) (msg : Message) (x : IronError)
    (hu : unpack pf tok = Except.ok msg)
    (hexp : expCheck vo now msg = Except.ok ())
    (hh : hmacWithPassword pf vo msg.hmacSalt (msgBase pf msg) = Except.error x) :
    Unseal pf vo now tok = Except.error x := by
  simp only [Unseal, hu, hexp, hh]

theorem Unseal_stage_compare (pf : Platform) (vo : VaultOpts) (now : Int)
    (tok : List Nat) (msg : Message) (dg : List Nat)
    (hu : unpack pf tok = Except.ok msg)
    (hexp : expCheck vo now msg = Except.ok ())
    (hh : hmacWithPassword pf vo msg.hmacSalt (msgBase pf msg) = Except.ok dg) :
    Unseal pf vo now tok =
      if ctCompare dg msg.hmac = 0 then
        Except.error (IronError.unsealErr ("Bad hmac value"))
      else decrypt pf vo msg := by
  simp only [Unseal, hu, hexp, hh]

/-- Claim C2: for every token whose expiration field is set, Unseal fails
with UnsealError "Expired or invalid seal" exactly when the local clock
plus LocalTimeOffset exceeds the expiration by more than TimestampSkew;
tokens expired by no more than the skew, and future-dated tokens, are
never rejected by the expiration check.  (Verified against the
seal-capable Unseal, src/unnamed/part_002:204-209, which the spec
describes; the stale unseal-only copy src/iron.go:157-162 instead rejects
whenever its delta differs from the skew.) -/
theorem claim2_expiration_skew (pf : Platform) (vo : VaultOpts) (now : Int)
    (tok : List Nat) (msg : Message) (e : Int)
    (hu : unpack pf tok = Except.ok msg) (he : msg.expiration = some e) :
    Unseal pf vo now tok =
        Except.error (IronError.unsealErr ("Expired or invalid seal")) ↔
      vo.timestampSkew < now + vo.localTimeOffset - e := by
  constructor
  · intro h
    by_contra hlt
    have hexp : expCheck vo now msg = Except.ok () := by
      simp only [expCheck, he]
      rw [if_neg (by omega)]
    rcases hh : hmacWithPassword pf vo msg.hmacSalt (msgBase pf msg) with e2 | dg
    · have hq := Unseal_stage_hmacErr pf vo now tok msg e2 hu hexp hh
      obtain ⟨cc, rfl⟩ := hmacWithPassword_error_shape pf vo _ _ e2 hh
      have h2 := hq.symm.trans h
      injection h2 with h3
      exact IronError.noConfusion h3
    · have hq := Unseal_stage_compare pf vo now tok msg dg hu hexp hh
      rw [hq] at h
      by_cases hz : ctCompare dg msg.hmac = 0
      · rw [if_pos hz] at h
        injection h with h2
        injection h2 with h3
        exact absurd h3 (by decide)
      · rw [if_neg hz] at h
        obtain ⟨cc, hcc⟩ := decrypt_error_shape pf vo msg _ h
        exact IronError.noConfusion hcc
  · intro h
    exact Unseal_stage_expErr pf vo now tok msg _ hu
      (by simp only [expCheck, he]; rw [if_pos (by omega)])

/-- Witness for claim C2: a concrete token expiring 5 ms after the epoch,
with the default 60 s skew, unsealed at 70 s after the epoch, is rejected
as expired. -/
theorem claim2_expiration_skew_witness :
    Unseal Pw voD (70 * 1000000000) tokC2 =
      Except.error (IronError.unsealErr ("Expired or invalid seal")) :=
  (claim2_expiration_skew Pw voD (70 * 1000000000) tokC2 msgC2 5000000 rfl
    rfl).mpr (by decide)

/-- Claim C3, amended: randBits(n) returns exactly n bytes on success (the
source allocates a buffer of n bytes, `b := make([]byte, n)`, and
crypto/rand fills it completely; the "bit count" is in fact treated as a
byte count, and the default salt and IV sizes of the library, 32 and 16,
compensate accordingly). -/
theorem claim3_randBits_amended (pf : Platform) (i n : Nat) (b : List Nat)
    (h : randBits pf i n = Except.ok b) : b.length = n := by
  unfold randBits at h
  rcases hh : pf.randRead i n with c | bb
  · rw [hh] at h
    exact Except.noConfusion h
  · rw [hh] at h
    injection h with h2
    rw [← h2]
    exact pf.randReadLen i n bb hh

/-- Witness for claim C3: a successful randBits call with n = 5 returns a
5-byte buffer. -/
theorem claim3_randBits_amended_witness :
    randBits Pw 0 5 = Except.ok (List.replicate 5 48) ∧
      (List.replicate 5 48).length = 5 :=
  ⟨rfl, claim3_randBits_amended Pw 0 5 (List.replicate 5 48) rfl⟩

/-- Counterexample for claim C3 as stated: randBits(8) returns 8 bytes,
not 8/8 = 1 byte. -/
theorem claim3_randBits_counterexample :
    okPayload (randBits Pw 0 8) = some (List.replicate 8 48) ∧
      (List.replicate 8 48).length = 8 ∧ (8 : Nat) ≠ 8 / 8 :=
  ⟨rfl, by decide, by decide⟩

/-- Claim C9: generateSalt ignores its size argument — two calls with any
two requested sizes are identical — and on success returns the base64url
encoding of an Encryption.SaltBits-byte draw from the RNG; in particular
the HMAC salt that Seal requests with Integrity.SaltBits
(src/unnamed/part_002:245) has its size determined by Encryption.SaltBits
(src/unnamed/part_002:148). -/
theorem claim9_generateSalt (pf : Platform) (vo : VaultOpts) (i : Nat) :
    (∀ s1 s2 : Nat, generateSalt pf vo i s1 = generateSalt pf vo i s2) ∧
      (∀ (sz : Nat) (r : List Nat),
        pf.randRead i vo.encryption.saltBits = Except.ok r →
          generateSalt pf vo i sz = Except.ok (pf.b64enc r) ∧
            r.length = vo.encryption.saltBits) := by
  constructor
  · intro s1 s2
    rfl
  · intro sz r hr
    constructor
    · simp [generateSalt, randBits, hr]
    · exact pf.randReadLen _ _ _ hr

/-- Witness for claim C9: with Integrity.SaltBits = 7 and
Encryption.SaltBits = 32, the salt drawn for the HMAC request is still a
32-byte draw. -/
theorem claim9_generateSalt_witness :
    generateSalt Pw voOdd 2 voOdd.integrity.saltBits =
        Except.ok (shiftEnc (List.replicate 32 48)) ∧
      (List.replicate 32 48).length = voOdd.encryption.saltBits ∧
      voOdd.integrity.saltBits ≠ voOdd.encryption.saltBits := by
  obtain ⟨h1, h2⟩ :=
    (claim9_generateSalt Pw voOdd 2).2 voOdd.integrity.saltBits
      (List.replicate 32 48) rfl
  exact ⟨h1, h2, by decide⟩

/-
Evaluation of the expiration branch of unpack.
-/

theorem unpack_expiration (pf : Platform) (s : List Nat) (msg : Message)
    (hu : unpack pf s = Except.ok msg) (d : Int)
    (h5 : 0 < ((splitStar s).getD 5 []).length)
    (hp : parseInt64 ((splitStar s).getD 5 []) = some d) :
    msg.expiration = some (wrap64 (d * 1000000)) := by
  simp only [unpack] at hu
  by_cases h8 : (splitStar s).length ≠ 8
  · rw [if_pos h8] at hu
    exact Except.noConfusion hu
  · rw [if_neg h8] at hu
    by_cases h0 : (splitStar s).getD 0 [] ≠ macPrefixBytes
    · rw [if_pos h0] at hu
      exact Except.noConfusion hu
    · rw [if_neg h0] at hu
      rw [if_pos h5, hp] at hu
      rcases hd3 : pf.b64dec ((splitStar s).getD 3 []) with _ | iv <;> rw [hd3] at hu
      · exact Except.noConfusion hu
      · rcases hd4 : pf.b64dec ((splitStar s).getD 4 []) with _ | body <;>
          rw [hd4] at hu
        · exact Except.noConfusion hu
        · rcases hd7 : pf.b64dec ((splitStar s).getD 7 []) with _ | hm <;>
            rw [hd7] at hu
          · exact Except.noConfusion hu
          · injection hu with hu2
            rw [← hu2]

theorem unpack_expiration_parseErr (pf : Platform) (s : List Nat)
    (h8 : (splitStar s).length = 8)
    (h0 : (splitStar s).getD 0 [] = macPrefixBytes)
    (h5 : 0 < ((splitStar s).getD 5 []).length)
    (hp : parseInt64 ((splitStar s).getD 5 []) = none) :
    unpack pf s = Except.error (IronError.unsealErr ("Invalid expiration time")) := by
  simp only [unpack]
  rw [if_neg (by omega), if_neg (by rw [h0]; exact fun hc => hc rfl), if_pos h5, hp]

/-- Claim C5, amended: in a token of valid shape whose sixth field is a
non-empty decimal string d within int64, Unpack sets Expiration to the
time whose nanosecond offset from the Unix epoch is d·10⁶ reduced by
signed 64-bit wraparound — this equals d milliseconds after the epoch
exactly when d·10⁶ fits in int64, but wraps for larger d (see the
counterexample); if the field is non-empty and not a valid signed 64-bit
decimal integer, Unpack returns UnsealError "Invalid expiration time".
(Verified against src/support.go:38-44, which the spec describes; the
stale copy src/unnamed/part_000:32-38 treats the value as nanoseconds
instead.) -/
theorem claim5_expiration_parse_amended (pf : Platform) (tok : List Nat) :
    (∀ (msg : Message) (d : Int), unpack pf tok = Except.ok msg →
        0 < ((splitStar tok).getD 5 []).length →
        parseInt64 ((splitStar tok).getD 5 []) = some d →
        msg.expiration = some (wrap64 (d * 1000000))) ∧
      ((splitStar tok).length = 8 →
        (splitStar tok).getD 0 [] = macPrefixBytes →
        0 < ((splitStar tok).getD 5 []).length →
        parseInt64 ((splitStar tok).getD 5 []) = none →
        unpack pf tok =
          Except.error (IronError.unsealErr ("Invalid expiration time"))) ∧
      (∀ z : Int, -(2 ^ 63) ≤ z → z < 2 ^ 63 → wrap64 z = z) := by
  refine ⟨?_, ?_, ?_⟩
  · intro msg d hu h5 hp
    exact unpack_expiration pf tok msg hu d h5 hp
  · intro h8 h0 h5 hp
    exact unpack_expiration_parseErr pf tok h8 h0 h5 hp
  · intro z h1 h2
    unfold wrap64
    omega

/-- Witness for claim C5: the token with expiration field "5" gets
Expiration = 5 ms = 5000000 ns after the epoch, and a token with
expiration field "x" is rejected with "Invalid expiration time". -/
theorem claim5_expiration_parse_amended_witness :
    msgC2.expiration = some (wrap64 (5 * 1000000)) ∧
      unpack Pw tokC5bad =
        Except.error (IronError.unsealErr ("Invalid expiration time")) := by
  constructor
  · exact (claim5_expiration_parse_amended Pw tokC2).1 msgC2 5 rfl (by decide)
      (by decide)
  · exact (claim5_expiration_parse_amended Pw tokC5bad).2.1 (by decide) (by decide)
      (by decide) (by decide)

/-- Counterexample for claim C5 as stated: the expiration field
9223372036854775807 (a valid signed 64-bit decimal) yields an Expiration
of −1000000 ns — a time before the epoch — because the multiplication by
10⁶ wraps around int64; it is not 9223372036854775807 ms after the
epoch. -/
theorem claim5_expiration_parse_counterexample :
    okExpiration (unpack Pw tokBig) = some (some (-1000000)) ∧
      (-1000000 : Int) ≠ 9223372036854775807 * 1000000 :=
  ⟨rfl, by decide⟩

/-- Claim C10: a token whose expiration field is the literal "0" gets
Expiration = the Unix epoch (`some 0`, distinct from the absent value),
so the expiration check runs and, whenever the local clock plus offset
exceeds the skew, Unseal rejects the token with "Expired or invalid seal"
rather than skipping the check. -/
theorem claim10_zero_expiration (pf : Platform) (vo : VaultOpts) (now : Int)
    (tok : List Nat) (msg : Message)
    (h5 : (splitStar tok).getD 5 [] = [48])
    (hu : unpack pf tok = Except.ok msg) :
    msg.expiration = some 0 ∧ some (0 : Int) ≠ none ∧
      (vo.timestampSkew < now + vo.localTimeOffset →
        Unseal pf vo now tok =
          Except.error (IronError.unsealErr ("Expired or invalid seal"))) := by
  have hexp : msg.expiration = some 0 := by
    have h := unpack_expiration pf tok msg hu 0 (by rw [h5]; decide)
      (by rw [h5]; decide)
    rw [h]
    norm_num [wrap64]
  refine ⟨hexp, by simp, ?_⟩
  intro hlt
  exact Unseal_stage_expErr pf vo now tok msg _ hu
    (by simp only [expCheck, hexp]; rw [if_pos (by omega)])

/-- Witness for claim C10: the concrete token with expiration field "0",
unsealed at 70 s after the epoch under the default 60 s skew, is rejected
as expired. -/
theorem claim10_zero_expiration_witness :
    msgC10.expiration = some 0 ∧
      Unseal Pw voD (70 * 1000000000) tokC10 =
        Except.error (IronError.unsealErr ("Expired or invalid seal")) := by
  obtain ⟨h1, _, h3⟩ :=
    claim10_zero_expiration Pw voD (70 * 1000000000) tokC10 msgC10 (by decide) rfl
  exact ⟨h1, h3 (by decide)⟩

/-- Claim C4: for every token that passes the MAC check (and the earlier
unpack and expiration stages, with the cipher instantiating), Unseal
returns the decrypted plaintext with all trailing 0x09 bytes stripped.
(Verified against the seal-capable decrypt, src/unnamed/part_002:135-145,
which the spec describes; the stale unseal-only copy src/iron.go:134-144
returns the buffer without the trim.) -/
theorem claim4_trim (pf : Platform) (vo : VaultOpts) (now : Int)
    (tok : List Nat) (msg : Message) (dg : List Nat) (c : BlockCipher)
    (hu : unpack pf tok = Except.ok msg)
    (hexp : expCheck vo now msg = Except.ok ())
    (hh : hmacWithPassword pf vo msg.hmacSalt (msgBase pf msg) = Except.ok dg)
    (hpass : ctCompare dg msg.hmac ≠ 0)
    (hc : vo.encryption.cipher
        (generateKey pf vo vo.encryption.keyBits vo.encryption.iterations msg.salt)
        msg.iv = Except.ok c) :
    Unseal pf vo now tok = Except.ok (trimTabs (c.dec msg.encryptedBody)) := by
  rw [Unseal_stage_compare pf vo now tok msg dg hu hexp hh, if_neg hpass]
  simp only [decrypt, hc]

/-- Witness for claim C4: a concrete token whose body decrypts to
[7, 9, 9] is unsealed to [7] — both trailing 0x09 bytes are stripped. -/
theorem claim4_trim_witness :
    Unseal PhmacNil voD 0 tokC4 = Except.ok [7] ∧
      trimTabs (idCipher1.dec msgC4.encryptedBody) = [7] := by
  have h := claim4_trim PhmacNil voD 0 tokC4 msgC4 [] idCipher1 rfl rfl rfl
    (by decide) rfl
  exact ⟨h, rfl⟩

/-
Digit-range lemmas for the reconstructed expiration field.
-/

theorem natDecBytes_range (n : Nat) : ∀ x ∈ natDecBytes n, 48 ≤ x ∧ x ≤ 57 := by
  induction n using Nat.strong_induction_on with
  | _ n ih =>
    intro x hx
    unfold natDecBytes at hx
    by_cases hn : n < 10
    · rw [dif_pos hn] at hx
      simp at hx
      omega
    · rw [dif_neg hn] at hx
      rw [List.mem_append] at hx
      rcases hx with hx | hx
      · exact ih (n / 10) (Nat.div_lt_self (by omega) (by omega)) x hx
      · simp at hx
        have := Nat.mod_lt n (show 0 < 10 by omega)
        omega

theorem intDecBytes_noStar (i : Int) : 42 ∉ intDecBytes i := by
  unfold intDecBytes
  intro hx
  by_cases hi : i < 0
  · rw [if_pos hi] at hx
    rw [List.mem_cons] at hx
    rcases hx with hx | hx
    · omega
    · have := natDecBytes_range i.natAbs 42 hx
      omega
  · rw [if_neg hi] at hx
    have := natDecBytes_range i.toNat 42 hx
    omega

theorem expField_noStar (m : Message) : 42 ∉ expField m := by
  unfold expField
  rcases m.expiration with _ | e
  · simp
  · exact intDecBytes_noStar _

/-- Claim C7: Pack of a freshly constructed empty message is
"Fe26.2*******"; Pack of a message whose only set field is base = "base"
is "base**"; and when the base memo is absent, Base reconstructs the base
by joining the first six fields with "*" instead of failing (its result
splits back into exactly those six fields).  (Verified against
src/support.go:64-95; the stale copy src/unnamed/part_000:58-66 panics
when the memo is absent.) -/
theorem claim7_pack (pf : Platform) :
    pack pf emptyMessage = strB ("Fe26.2*******") ∧
      pack pf { emptyMessage with base := strB ("base") } = strB ("base**") ∧
      ∀ m : Message, m.base = [] → 42 ∉ m.salt →
        splitStar (msgBase pf m) =
          [macPrefixBytes, [], m.salt, pf.b64enc m.iv, pf.b64enc m.encryptedBody,
            expField m] := by
  refine ⟨?_, ?_, ?_⟩
  · simp [pack, msgBase, emptyMessage, expField, pf.b64Nil, joinStar]
    decide
  · simp [pack, msgBase, emptyMessage, pf.b64Nil, joinStar]
    decide
  · intro m hb hsalt
    rw [msgBase, if_neg (by simp [hb])]
    refine splitStar_joinStar _ (by simp) ?_
    intro cc hcc
    simp only [List.mem_cons, List.not_mem_nil, or_false] at hcc
    rcases hcc with rfl | rfl | rfl | rfl | rfl | rfl
    · decide
    · simp
    · exact hsalt
    · exact pf.b64NoStar m.iv
    · exact pf.b64NoStar m.encryptedBody
    · exact expField_noStar m

/-- Witness for claim C7: the three parts applied over the concrete
platform, the last at a concrete memo-less message. -/
theorem claim7_pack_witness :
    pack Pw emptyMessage = strB ("Fe26.2*******") ∧
      splitStar (msgBase Pw { emptyMessage with salt := [115] }) =
        [macPrefixBytes, [], [115], [], [], []] := by
  refine ⟨(claim7_pack Pw).1, ?_⟩
  have h := (claim7_pack Pw).2.2 { emptyMessage with salt := [115] } rfl (by decide)
  exact h

/-- Claim C8: the MAC comparison in Unseal is the constant-time
subtle.ConstantTimeCompare: (i) its byte-operation count depends only on
the input lengths, never on where the first difference lies, so it cannot
short-circuit; (ii) it returns 1 exactly on equal inputs; and (iii) any
mismatch makes Unseal fail with UnsealError "Bad hmac value". -/
theorem claim8_constant_time :
    (∀ x y : List Nat, x.length = y.length → (ctScan x y).2 = x.length) ∧
      (∀ x y : List Nat, ctCompare x y = 1 ↔ x = y) ∧
      (∀ (pf : Platform) (vo : VaultOpts) (now : Int) (tok : List Nat)
          (msg : Message) (dg : List Nat),
        unpack pf tok = Except.ok msg →
        expCheck vo now msg = Except.ok () →
        hmacWithPassword pf vo msg.hmacSalt (msgBase pf msg) = Except.ok dg →
        ctCompare dg msg.hmac = 0 →
        Unseal pf vo now tok =
          Except.error (IronError.unsealErr ("Bad hmac value"))) := by
  refine ⟨ctScan_snd_len, ctCompare_eq_one_iff, ?_⟩
  intro pf vo now tok msg dg hu hexp hh hz
  rw [Unseal_stage_compare pf vo now tok msg dg hu hexp hh, if_pos hz]

/-- Witness for claim C8: the operation count at two equal-length inputs,
the comparison characterization, and a concrete mismatching token rejected
with "Bad hmac value". -/
theorem claim8_constant_time_witness :
    (ctScan [1, 2] [3, 4]).2 = 2 ∧
      (ctCompare [1, 2] [1, 2] = 1 ↔ ([1, 2] : List Nat) = [1, 2]) ∧
      Unseal Pw voD 0 tokC8 =
        Except.error (IronError.unsealErr ("Bad hmac value")) := by
  refine ⟨claim8_constant_time.1 [1, 2] [3, 4] rfl,
    claim8_constant_time.2.1 [1, 2] [1, 2], ?_⟩
  exact claim8_constant_time.2.2 Pw voD 0 tokC8 msgC8
    (List.replicate 32 0 ++ strB ("Fe26.2**s*0*0*")) rfl rfl rfl (by decide)

/-- Claim C6 (code bug): failures of the random source and of cipher
initialization do propagate out of Seal with no token produced, but the
error of the HMAC digest step (hmacWithPassword, whose hash-write error
the source assigns at src/unnamed/part_002:249 and never checks) is
silently dropped: Seal still returns a packed token, with an empty HMAC,
and a nil error — contradicting the claim that every internal failure
propagates. -/
theorem claim6_seal_error_propagation_bug :
    Seal PrFail voD 0 [1, 2] = Except.error (IronError.opErr 3) ∧
      Seal Pw voCFail 0 [1, 2] = Except.error (IronError.opErr 5) ∧
      isOkList (Seal PhFail voD 0 [1, 2]) = true :=
  ⟨rfl, rfl, rfl⟩

end IronGo
